import Mathlib

/-
Verification development for the crocoback parts-catalog API core:
the query-filter compiler and paginator of getAllParts, the reference
reconciler replaceChildPartsData, and the back-fill pass of
generateRandomParts (src/controllers/partController.ts).

Modelling conventions:
  - MongoDB ObjectIds are modelled as natural numbers (always truthy in JS,
    matched by using the bare Nat inside Option for nullable references).
  - A JS value that may be a string or undefined is Option String; the JS
    truthiness test on such a value is the predicate truthy below.
  - JS Map built by repeated set calls is modelled by lookupId / genLookup,
    where a later entry overwrites an earlier one with the same key.
  - Math.floor(Math.random() * pool.length) is modelled by an arbitrary
    index stream passed as a parameter; the code is nondeterministic, the
    model quantifies over the stream.
  - Case-insensitive regex matching of a user-supplied term ($regex with
    option i) is modelled as case-insensitive literal substring search,
    which is its meaning on terms without regex metacharacters.
  - Date query parameters are modelled as integer timestamps at the
    boundary (new Date parsing is outside the core).
-/

/-- Projection of a canonical pool record: partNumber partName
partDescription _id, as fetched by replaceChildPartsData. -/
structure PoolEntry where
  partNumber : String
  partName : String
  partDescription : Option String
  id : Nat
deriving DecidableEq

/-- An embedded child-part record as manipulated by the reconciler. -/
structure ChildPart where
  partNumber : String
  partName : String
  partDescription : Option String
  supplier : Option String
  quantity : Nat
  mainPartId : Option Nat
deriving DecidableEq

/-- A parent part, reduced to the fields the reconciler touches. -/
structure ParentPart where
  id : Nat
  childParts : List ChildPart
deriving DecidableEq

/-- Lookup in the partNumberToIdMap built by forEach and Map.set over the
pool: a later pool entry with the same partNumber overwrites an earlier
one, so the recursion prefers the result found in the tail. -/
def lookupId : List PoolEntry → String → Option Nat
  | [], _ => none
  | e :: rest, pn =>
    match lookupId rest pn with
    | some i => some i
    | none => if e.partNumber = pn then some e.id else none

/-- The replacement condition of replaceChildPartsData: any of partNumber,
partName, partDescription differs from the selected pool entry, or the
child has no mainPartId (JS truthiness test). -/
def needsReplace (c : ChildPart) (e : PoolEntry) : Bool :=
  decide (c.partNumber ≠ e.partNumber) ||
  decide (c.partName ≠ e.partName) ||
  decide (c.partDescription ≠ e.partDescription) ||
  c.mainPartId.isNone

/-- The replacement object built when needsReplace holds: code, name and
description come from the pool entry (description defaulted to the empty
string when missing), quantity and supplier are kept from the original
child, and mainPartId is the map lookup with the pool entry id as
fallback. -/
def replacementChild (pool : List PoolEntry) (e : PoolEntry) (c : ChildPart) : ChildPart :=
  { partNumber := e.partNumber
    partName := e.partName
    partDescription := some (e.partDescription.getD "")
    quantity := c.quantity
    supplier := c.supplier
    mainPartId := some ((lookupId pool e.partNumber).getD e.id) }

/-- The object built on the no-change path: original fields are kept
(description defaulted to the empty string), and mainPartId is the original
one when truthy, otherwise the guarded map lookup
(child.partNumber and-then map.get, where an empty partNumber is falsy). -/
def noChangeChild (pool : List PoolEntry) (c : ChildPart) : ChildPart :=
  { partNumber := c.partNumber
    partName := c.partName
    partDescription := some (c.partDescription.getD "")
    quantity := c.quantity
    supplier := c.supplier
    mainPartId :=
      match c.mainPartId with
      | some m => some m
      | none => if c.partNumber = "" then none else lookupId pool c.partNumber }

/-- One child rewrite of replaceChildPartsData: the randomly drawn index
idx selects the pool entry; the defensive JS truthiness check on the
selected element is the match on List.get?. -/
def reconcileChild (pool : List PoolEntry) (idx : Nat) (c : ChildPart) : ChildPart :=
  match pool[idx]? with
  | some e => if needsReplace c e then replacementChild pool e c else noChangeChild pool c
  | none => noChangeChild pool c

/-- The map over one parent child list; rc gives the random draw used for
the child at each position, j is the position of the first child. -/
def reconcileChildren (pool : List PoolEntry) (rc : Nat → Nat) : Nat → List ChildPart → List ChildPart
  | _, [] => []
  | j, c :: cs => reconcileChild pool (rc j) c :: reconcileChildren pool rc (j + 1) cs

/-- The main loop of replaceChildPartsData over the parent collection,
returning the final parent records and the updatedCount. Parents with an
empty child list are not fetched by the query and pass through; for every
other parent the child list is replaced and needsUpdate is set
unconditionally, so the parent is saved and counted. r i is the draw
stream used for the parent at position i. -/
def runRec (pool : List PoolEntry) (r : Nat → Nat → Nat) : Nat → List ParentPart → List ParentPart × Nat
  | _, [] => ([], 0)
  | i, p :: ps =>
    let rest := runRec pool r (i + 1) ps
    if p.childParts.isEmpty then (p :: rest.1, rest.2)
    else ({ p with childParts := reconcileChildren pool (r i) 0 p.childParts } :: rest.1, rest.2 + 1)

/-- A part record, reduced to the fields the listing filter inspects.
category and supplier are tag-sets (arrays in the schema); subCategory and
alternativePartNumbers are optional arrays; createdAt is a timestamp. -/
structure PartRec where
  partNumber : String
  partName : String
  partDescription : Option String
  category : List String
  subCategory : Option (List String)
  supplier : List String
  alternativePartNumbers : Option (List String)
  createdAt : Int
deriving DecidableEq

/-- The query parameters consumed by getAllParts. Every parameter is an
optional string except the two date bounds, which are modelled as already
parsed timestamps. -/
structure QueryParams where
  page : Option String := none
  limit : Option String := none
  globalSearch : Option String := none
  partNumber : Option String := none
  partName : Option String := none
  category : Option String := none
  subCategory : Option String := none
  supplier : Option String := none
  alternativePartNumber : Option String := none
  description : Option String := none
  startDate : Option Int := none
  endDate : Option Int := none
deriving DecidableEq

/-- JS truthiness of a string-or-undefined query value: present and not the
empty string. -/
def truthy : Option String → Bool
  | none => false
  | some s => decide (s ≠ "")

/-- The four JSON whitespace characters. -/
def wsChars : List Char := [' ', '\t', '\n', '\r']

/-- Leading JSON whitespace skipper, also used for the whitespace skipping
of parseInt. -/
def skipWs : List Char → List Char
  | [] => []
  | c :: cs => if wsChars.contains c then skipWs cs else c :: cs

/-- The table of single-character JSON escapes, escape letter first. -/
def escPairs : List (Char × Char) :=
  [('"', '"'), ('\\', '\\'), ('/', '/'), ('n', '\n'), ('t', '\t'), ('r', '\r')]

/-- Resolution of a single-character JSON escape; unicode escapes are not
needed for tag values and make the parse fail. -/
def escChar (c : Char) : Option Char :=
  (escPairs.find? (fun pr => pr.1 == c)).map (fun pr => pr.2)

/-- Body of a JSON string literal after the opening quote: consumes up to
the closing quote, handling the single-character escapes. -/
def strLitBody : Bool → List Char → List Char → Option (String × List Char)
  | _, _, [] => none
  | true, acc, c :: rest =>
    match escChar c with
    | some c2 => strLitBody false (c2 :: acc) rest
    | none => none
  | false, acc, c :: rest =>
    if c == '"' then some (String.mk acc.reverse, rest)
    else if c == '\\' then strLitBody true acc rest
    else strLitBody false (c :: acc) rest

/-- A JSON string literal including its opening quote. -/
def strLit (l : List Char) : Option (String × List Char) :=
  match l with
  | '"' :: rest => strLitBody false [] rest
  | _ => none

/-- Comma-separated JSON string literals up to the closing bracket. -/
def arrItems : Nat → List Char → Option (List String × List Char)
  | 0, _ => none
  | fuel + 1, l =>
    match strLit (skipWs l) with
    | none => none
    | some (s, rest) =>
      match skipWs rest with
      | ',' :: rest2 =>
        match arrItems fuel rest2 with
        | some (ss, r) => some (s :: ss, r)
        | none => none
      | ']' :: rest2 => some ([s], rest2)
      | _ => none

/-- JSON.parse restricted to arrays of string literals, the only shape a
tag filter takes; any other JSON text fails, which in the compiler falls
into the same fallback branch as a JSON.parse exception. -/
def parseJsonStrArr (raw : String) : Option (List String) :=
  let l := raw.toList
  match skipWs l with
  | '[' :: rest =>
    match skipWs rest with
    | ']' :: rest2 => if (skipWs rest2).isEmpty then some [] else none
    | _ =>
      match arrItems l.length rest with
      | some (ss, rest2) => if (skipWs rest2).isEmpty then some ss else none
      | none => none
  | _ => none

/-- True when the raw parameter value begins with an opening bracket, the
test the compiler uses before attempting JSON.parse. -/
def startsBracket (raw : String) : Bool :=
  match raw.toList with
  | c :: _ => c == '['
  | [] => false

/-- A compiled set-valued filter condition: either contains-all of a tag
list (the $all operator) or contains-at-least-one given tag ($in with a
single element). -/
inductive SetCond where
  | all (tags : List String)
  | inOne (tag : String)
deriving DecidableEq

/-- The set-valued filter compiler used for category, subCategory and
supplier: parse a bracket-led value as a JSON array to a contains-all
condition, otherwise (including on parse failure) fall back to a single
token condition on the literal raw string. -/
def compileSetFilter (raw : String) : SetCond :=
  if startsBracket raw then
    match parseJsonStrArr raw with
    | some l => SetCond.all l
    | none => SetCond.inOne raw
  else SetCond.inOne raw

/-- Evaluation of a set condition against a tag-set: contains-all is a
superset test, a single token is a membership test. -/
def setMatches (sc : SetCond) (tags : List String) : Bool :=
  match sc with
  | SetCond.all l => l.all (fun x => tags.contains x)
  | SetCond.inOne s => tags.contains s

/-- The structured filter object built by getAllParts: at most one of
globalOr and the per-field conditions is populated; createdRange is the
closed timestamp interval added when both dates are present. -/
structure CompiledFilter where
  globalOr : Option String := none
  partNumber : Option String := none
  partName : Option String := none
  partDescription : Option String := none
  category : Option SetCond := none
  subCategory : Option SetCond := none
  supplier : Option SetCond := none
  alternativePartNumbers : Option String := none
  createdRange : Option (Int × Int) := none
deriving DecidableEq

/-- Optional-string field kept only when the query value is truthy. -/
def keepTruthy (v : Option String) : Option String :=
  if truthy v then v else none

/-- Optional set filter compiled only when the query value is truthy. -/
def keepSet (v : Option String) : Option SetCond :=
  if truthy v then some (compileSetFilter (v.getD "")) else none

/-- The date range clause, added independently of the globalSearch branch
whenever both bounds are present. -/
def dateRange (q : QueryParams) : Option (Int × Int) :=
  match q.startDate, q.endDate with
  | some a, some b => some (a, b)
  | _, _ => none

/-- The filter compiler of getAllParts: a truthy globalSearch selects the
seven-field OR and skips every per-field filter of the else branch; the
date range clause is attached in both cases. -/
def compileFilter (q : QueryParams) : CompiledFilter :=
  if truthy q.globalSearch then
    { globalOr := q.globalSearch, createdRange := dateRange q }
  else
    { partNumber := keepTruthy q.partNumber
      partName := keepTruthy q.partName
      partDescription := keepTruthy q.description
      category := keepSet q.category
      subCategory := keepSet q.subCategory
      supplier := keepSet q.supplier
      alternativePartNumbers := keepTruthy q.alternativePartNumber
      createdRange := dateRange q }

/-- Whether pat is an initial run of s, on character lists. -/
def prefAt (pat s : List Char) : Bool :=
  pat == s.take pat.length

/-- Whether pat occurs as a contiguous run anywhere in s. -/
def subAt (pat : List Char) : List Char → Bool
  | [] => pat.isEmpty
  | s@(_ :: rest) => prefAt pat s || subAt pat rest

/-- Case-insensitive substring test, the model of $regex with option i on
a literal search term. -/
def iSub (pat s : String) : Bool :=
  subAt (pat.toList.map Char.toLower) (s.toList.map Char.toLower)

/-- Substring test on an optional field: a document without the field does
not match a regex condition on it. -/
def iSubOpt (pat : String) : Option String → Bool
  | none => false
  | some s => iSub pat s

/-- Regex condition on an array field: matches when some element
matches. -/
def iSubAny (pat : String) (l : List String) : Bool :=
  l.any (fun s => iSub pat s)

/-- The seven-field OR predicate produced for a globalSearch term. -/
def orSearch (t : String) (p : PartRec) : Bool :=
  iSub t p.partNumber ||
  iSub t p.partName ||
  iSubOpt t p.partDescription ||
  iSubAny t p.category ||
  iSubAny t (p.subCategory.getD []) ||
  iSubAny t p.supplier ||
  iSubAny t (p.alternativePartNumbers.getD [])

/-- Evaluation of the compiled filter against a part record, with the
document-store semantics the spec assumes of its collaborator: regex as
substring, $all as superset, $in with one element as membership, missing
array fields as empty. -/
def matchesFilter (f : CompiledFilter) (p : PartRec) : Bool :=
  (match f.globalOr with | none => true | some t => orSearch t p) &&
  (match f.partNumber with | none => true | some t => iSub t p.partNumber) &&
  (match f.partName with | none => true | some t => iSub t p.partName) &&
  (match f.partDescription with | none => true | some t => iSubOpt t p.partDescription) &&
  (match f.category with | none => true | some sc => setMatches sc p.category) &&
  (match f.subCategory with | none => true | some sc => setMatches sc (p.subCategory.getD [])) &&
  (match f.supplier with | none => true | some sc => setMatches sc p.supplier) &&
  (match f.alternativePartNumbers with | none => true | some t => iSubAny t (p.alternativePartNumbers.getD [])) &&
  (match f.createdRange with | none => true | some ab => decide (ab.1 ≤ p.createdAt) && decide (p.createdAt ≤ ab.2))

/-- Value of the leading digit run of parseInt, none when the first
character is not a digit. Later non-digit characters are ignored, matching
the prefix semantics of parseInt. -/
def digitsVal : List Char → Option Nat
  | [] => none
  | c :: cs =>
    if c.isDigit then
      some (cs.foldl (fun st d => match st with
        | (n, true) => if d.isDigit then (n * 10 + (d.toNat - 48), true) else (n, false)
        | (n, false) => (n, false)) ((c.toNat - 48), true)).1
    else none

/-- parseInt on a string in base 10: leading whitespace skipped, optional
sign, then a leading digit run; none models NaN. -/
def parseIntJS (s : String) : Option Int :=
  match skipWs s.toList with
  | '-' :: rest => (digitsVal rest).map (fun n => -(n : Int))
  | '+' :: rest => (digitsVal rest).map (fun n => (n : Int))
  | l => (digitsVal l).map (fun n => (n : Int))

/-- The page number of getAllParts: parseInt(page) with NaN and 0 (the
falsy values) replaced by 1. A negative parse result is kept. -/
def pageOf (v : Option String) : Int :=
  match v with
  | none => 1
  | some s =>
    match parseIntJS s with
    | none => 1
    | some n => if n = 0 then 1 else n

/-- The page size of getAllParts, defaulted to 50 the same way. -/
def limitOf (v : Option String) : Int :=
  match v with
  | none => 50
  | some s =>
    match parseIntJS s with
    | none => 50
    | some n => if n = 0 then 50 else n

/-- The offset computed by getAllParts. -/
def skipOf (q : QueryParams) : Int :=
  (pageOf q.page - 1) * limitOf q.limit

/-- The listing result assembled by getAllParts: the returned window, the
total matching count, totalPages as the ceiling of total over size, and
hasMore compared against skip plus the returned count. -/
structure PageResult where
  window : List PartRec
  total : Nat
  totalPages : Nat
  hasMore : Bool
deriving DecidableEq

/-- The paginator over the sorted list of matching records, for a 1-based
page and a positive size: skip is (page - 1) * size, the window is the
slice of size records from skip, hasMore is skip + returned < total and
totalPages is the ceiling of total over size. -/
def paginate (ms : List PartRec) (page size : Nat) : PageResult :=
  let total := ms.length
  let skip := (page - 1) * size
  let window := (ms.drop skip).take size
  { window := window
    total := total
    totalPages := (total + size - 1) / size
    hasMore := decide (skip + window.length < total) }

/-- A generated child placeholder of generateRandomParts; every field is
populated by the generator and mainPartId starts null. -/
structure GenChild where
  partNumber : String
  partName : String
  partDescription : String
  supplier : String
  quantity : Nat
  mainPartId : Option Nat
deriving DecidableEq

/-- A generated parent record after insertMany: its final id, its
partNumber and its optional child list. -/
structure GenPart where
  id : Nat
  partNumber : String
  childParts : Option (List GenChild)
deriving DecidableEq

/-- Lookup in the actualPartNumberToIdMap built over the inserted batch,
later entries overwriting earlier ones with the same partNumber. -/
def genLookup : List GenPart → String → Option Nat
  | [], _ => none
  | p :: rest, pn =>
    match genLookup rest pn with
    | some i => some i
    | none => if p.partNumber = pn then some p.id else none

/-- The back-fill of one parent inside generateRandomParts: when the child
list exists and is non-empty, each child keeps its fields and gets
mainPartId set to the map lookup on its own partNumber, null on a miss. -/
def backfillPart (batch : List GenPart) (p : GenPart) : GenPart :=
  match p.childParts with
  | none => p
  | some cs =>
    if cs.isEmpty then p
    else { p with childParts := some (cs.map (fun c => { c with mainPartId := genLookup batch c.partNumber })) }

/-- The whole back-fill pass over the inserted batch. -/
def backfillAll (batch : List GenPart) : List GenPart :=
  batch.map (backfillPart batch)

/-- A one-entry canonical pool used in concrete instances. -/
def samplePool : List PoolEntry := [⟨"P1", "N1", some "D", 5⟩]

/-- A two-entry canonical pool with distinct partNumbers. -/
def samplePool2 : List PoolEntry := [⟨"P1", "N1", some "D1", 1⟩, ⟨"P2", "N2", some "D2", 2⟩]

/-- A child placeholder with a null reference. -/
def sampleChild : ChildPart := ⟨"X", "Y", none, some "S", 2, none⟩

/-- Three parents: two with children, one without. -/
def sampleParents : List ParentPart :=
  [⟨1, [sampleChild]⟩, ⟨2, []⟩, ⟨3, [⟨"Z", "W", none, none, 1, none⟩]⟩]

/-- A single parent owning a single child. -/
def sampleParent1 : List ParentPart := [⟨9, [sampleChild]⟩]

/-- A part record whose code contains the term foo, created at time 0. -/
def samplePart : PartRec := ⟨"foo-1", "x", none, [], none, [], none, 0⟩

/-- A query carrying globalSearch together with a field filter and a
complete date range excluding samplePart. -/
def sampleQuery : QueryParams :=
  { globalSearch := some "foo", partNumber := some "bar", startDate := some 10, endDate := some 20 }

/-- A generated batch whose only parent has one child with the generator
child-code prefix, which matches no partNumber of the batch. -/
def sampleBatch : List GenPart :=
  [⟨1, "PAB-1234", some [⟨"CP-AAAA", "n", "d", "s", 1, none⟩]⟩]

/-- A generated batch where the child code of the first parent equals the
partNumber of the second parent. -/
def sampleBatch2 : List GenPart :=
  [⟨1, "PA", some [⟨"PB", "n", "d", "s", 1, none⟩]⟩, ⟨2, "PB", none⟩]

/-- A partNumber absent from the pool is not found by the map lookup. -/
theorem lookupId_eq_none {pool : List PoolEntry} {pn : String}
    (h : pn ∉ pool.map PoolEntry.partNumber) : lookupId pool pn = none := by
  induction pool with
  | nil => rfl
  | cons f rest ih =>
    simp only [List.map_cons, List.mem_cons, not_or] at h
    simp only [lookupId, ih h.2]
    exact if_neg (fun hh => h.1 hh.symm)

/-- With pairwise distinct partNumbers in the pool, the map lookup on the
partNumber of a pool entry returns exactly the id of that entry. -/
theorem lookupId_eq_id {pool : List PoolEntry} {e : PoolEntry}
    (hnd : (pool.map PoolEntry.partNumber).Nodup) (hmem : e ∈ pool) :
    lookupId pool e.partNumber = some e.id := by
  induction pool with
  | nil => cases hmem
  | cons f rest ih =>
    simp only [List.map_cons, List.nodup_cons] at hnd
    rcases List.mem_cons.mp hmem with h | h
    · subst h
      have hn : lookupId rest e.partNumber = none :=
        lookupId_eq_none (by simpa using hnd.1)
      simp [lookupId, hn]
    · have hr := ih hnd.2 h
      simp [lookupId, hr]

/-- Claim C3: on the replacement branch the rewritten child keeps the
original quantity and supplier verbatim, copies partNumber, partName and
partDescription (empty string for a missing description) from the selected
canonical entry, and points mainPartId at the id of that entry, given that
the pool partNumbers are pairwise distinct (the database enforces a unique
index on partNumber). -/
theorem reconcile_replacement_fields (pool : List PoolEntry) (idx : Nat) (e : PoolEntry)
    (c : ChildPart) (he : pool[idx]? = some e) (hrep : needsReplace c e = true)
    (hnd : (pool.map PoolEntry.partNumber).Nodup) :
    (reconcileChild pool idx c).quantity = c.quantity ∧
    (reconcileChild pool idx c).supplier = c.supplier ∧
    (reconcileChild pool idx c).partNumber = e.partNumber ∧
    (reconcileChild pool idx c).partName = e.partName ∧
    (reconcileChild pool idx c).partDescription = some (e.partDescription.getD "") ∧
    (reconcileChild pool idx c).mainPartId = some e.id := by
  have hmem : e ∈ pool := List.getElem?_mem he
  have hl : lookupId pool e.partNumber = some e.id := lookupId_eq_id hnd hmem
  simp [reconcileChild, he, hrep, replacementChild, hl]

/-- Concrete instance of the replacement-branch theorem. -/
theorem reconcile_replacement_fields_witness :
    (reconcileChild samplePool 0 sampleChild).quantity = sampleChild.quantity ∧
    (reconcileChild samplePool 0 sampleChild).supplier = sampleChild.supplier ∧
    (reconcileChild samplePool 0 sampleChild).partNumber = "P1" ∧
    (reconcileChild samplePool 0 sampleChild).partName = "N1" ∧
    (reconcileChild samplePool 0 sampleChild).partDescription = some "D" ∧
    (reconcileChild samplePool 0 sampleChild).mainPartId = some 5 :=
  reconcile_replacement_fields samplePool 0 ⟨"P1", "N1", some "D", 5⟩ sampleChild
    (by decide) (by decide) (by decide)

/-- The updatedCount accumulator counts one for every processed parent
whose child list is non-empty, independently of the start index. -/
theorem runRec_count (pool : List PoolEntry) (r : Nat → Nat → Nat) :
    ∀ (i : Nat) (ps : List ParentPart),
      (runRec pool r i ps).2 = (ps.filter (fun p => !p.childParts.isEmpty)).length := by
  intro i ps
  induction ps generalizing i with
  | nil => rfl
  | cons p ps ih =>
    by_cases h : p.childParts.isEmpty
    · simp [runRec, h, List.filter, ih]
    · simp [runRec, h, List.filter, ih]

/-- Claim C9: with a non-empty pool, the reconciler marks and persists
every fetched parent with a non-empty child list (needsUpdate is set
unconditionally after the replacement), so updatedCount equals the number
of parents whose childParts list is non-empty, even when no child field
differed. -/
theorem reconciler_counts_every_nonempty_parent (pool : List PoolEntry)
    (r : Nat → Nat → Nat) (ps : List ParentPart) (hpool : pool ≠ []) :
    (runRec pool r 0 ps).2 = (ps.filter (fun p => !p.childParts.isEmpty)).length :=
  runRec_count pool r 0 ps

/-- Concrete instance: two parents with children and one without give an
updatedCount of two. -/
theorem reconciler_counts_witness :
    (runRec samplePool (fun _ _ => 0) 0 sampleParents).2 =
      (sampleParents.filter (fun p => !p.childParts.isEmpty)).length :=
  reconciler_counts_every_nonempty_parent samplePool (fun _ _ => 0) sampleParents (by decide)

/-- A child rewritten with a valid draw always carries a resolved
reference: the replacement branch assigns the map lookup with the pool
entry id as fallback, and the no-change branch requires the original
reference to be truthy. -/
theorem reconcileChild_isSome (pool : List PoolEntry) (idx : Nat) (c : ChildPart)
    (h : idx < pool.length) : ((reconcileChild pool idx c).mainPartId).isSome = true := by
  have he : pool[idx]? = some pool[idx] := List.getElem?_eq_getElem h
  by_cases hrep : needsReplace c pool[idx] = true
  · simp [reconcileChild, he, hrep, replacementChild]
  · have hrep' : needsReplace c pool[idx] = false := by simpa using hrep
    simp only [needsReplace, Bool.or_eq_false_iff] at hrep'
    obtain ⟨m, hm⟩ : ∃ m, c.mainPartId = some m := by
      cases hchk : c.mainPartId with
      | none => rw [hchk] at hrep'; simp at hrep'
      | some m => exact ⟨m, rfl⟩
    simp [reconcileChild, he, hrep, noChangeChild, hm]

/-- Claim C10: after the reconciler processes a child list with a
non-empty pool and every random draw landing inside the pool, every entry
of the rewritten list has a non-null main-part reference. -/
theorem reconciled_children_all_resolved (pool : List PoolEntry) (rc : Nat → Nat)
    (cs : List ChildPart) (hpool : pool ≠ []) (hr : ∀ j, rc j < pool.length) :
    ∀ c' ∈ reconcileChildren pool rc 0 cs, (c'.mainPartId).isSome = true := by
  suffices h : ∀ (j : Nat), ∀ c' ∈ reconcileChildren pool rc j cs,
      (c'.mainPartId).isSome = true from h 0
  intro j
  induction cs generalizing j with
  | nil => intro c' hc'; cases hc'
  | cons c cs ih =>
    intro c' hc'
    rcases List.mem_cons.mp hc' with h | h
    · subst h; exact reconcileChild_isSome pool (rc j) c (hr j)
    · exact ih (j + 1) c' h

/-- Concrete instance: a child with a null reference comes out of the
rewrite with a resolved reference. -/
theorem reconciled_children_resolved_witness :
    ((reconcileChild samplePool 0 sampleChild).mainPartId).isSome = true :=
  reconciled_children_all_resolved samplePool (fun _ => 0) [sampleChild]
    (by decide) (fun _ => Nat.zero_lt_succ 0) (reconcileChild samplePool 0 sampleChild) (by decide)

/-- Claim C5 counterexample: the falsy-value coercion of parseInt(page)
replaces only NaN and 0 by 1; the value -1 parses to -1 and is kept, so the
computed skip is (-1 - 1) * 50 = -100, which is negative. -/
theorem page_minus_one_negative_skip :
    pageOf (some "-1") = -1 ∧
    skipOf { page := some "-1" } = -100 ∧
    skipOf { page := some "-1" } < 0 := by
  refine ⟨by decide, by decide, by decide⟩

/-- Claim C5 amended: the page number is 1 when the parameter is absent,
non-numeric, or parses to 0; any other parsed value, including a negative
one, is used as is. -/
theorem page_default_rules (s : String) (n : Int) :
    pageOf none = 1 ∧
    (parseIntJS s = none → pageOf (some s) = 1) ∧
    (parseIntJS s = some 0 → pageOf (some s) = 1) ∧
    (parseIntJS s = some n → n ≠ 0 → pageOf (some s) = n) := by
  refine ⟨rfl, ?_, ?_, ?_⟩
  · intro h; simp [pageOf, h]
  · intro h; simp [pageOf, h]
  · intro h hn; simp [pageOf, h, hn]

/-- Concrete instances of the page coercion rules. -/
theorem page_default_rules_witness :
    pageOf none = 1 ∧ pageOf (some "abc") = 1 ∧
    pageOf (some "0") = 1 ∧ pageOf (some "-1") = -1 :=
  ⟨(page_default_rules "x" 1).1,
   (page_default_rules "abc" 1).2.1 (by decide),
   (page_default_rules "0" 1).2.2.1 (by decide),
   (page_default_rules "-1" (-1)).2.2.2 (by decide) (by decide)⟩

/-- Claim C7: a set-valued filter value starting with an opening bracket
that is not valid JSON falls back to single-token matching on the literal
raw string, and the compiler always produces some predicate: every raw
value compiles to either a contains-all condition or a single-token
condition on the raw string itself. -/
theorem setfilter_fallback_total :
    compileSetFilter "[A,B" = SetCond.inOne "[A,B" ∧
    ∀ raw, (∃ l, compileSetFilter raw = SetCond.all l) ∨
      compileSetFilter raw = SetCond.inOne raw := by
  refine ⟨by decide, ?_⟩
  intro raw
  by_cases hb : startsBracket raw = true
  · cases hp : parseJsonStrArr raw with
    | none => right; simp [compileSetFilter, hb, hp]
    | some l => left; exact ⟨l, by simp [compileSetFilter, hb, hp]⟩
  · right; simp [compileSetFilter, hb]

/-- Claim C4: a set-valued filter whose raw value parses as a JSON array
compiles to a contains-all condition that holds exactly when the tag-set
contains every listed tag; a single-token value (no leading bracket, or a
failed parse) compiles to a membership condition that holds exactly when
the tag-set contains that one token. -/
theorem setfilter_semantics (raw : String) (tags : List String) :
    (∀ l, parseJsonStrArr raw = some l → startsBracket raw = true →
      (setMatches (compileSetFilter raw) tags = true ↔ ∀ x ∈ l, tags.contains x = true)) ∧
    ((startsBracket raw = false ∨ parseJsonStrArr raw = none) →
      (setMatches (compileSetFilter raw) tags = true ↔ tags.contains raw = true)) := by
  constructor
  · intro l hl hb
    simp [compileSetFilter, hb, hl, setMatches, List.all_eq_true]
  · intro h
    rcases h with hb | hp
    · simp [compileSetFilter, hb, setMatches]
    · by_cases hb : startsBracket raw = true
      · simp [compileSetFilter, hb, hp, setMatches]
      · simp [compileSetFilter, hb, setMatches]

/-- Concrete instances: a two-tag JSON array is a superset test, a bare
token is a membership test. -/
theorem setfilter_semantics_witness :
    setMatches (compileSetFilter "[\"A\",\"B\"]") ["B", "C", "A"] = true ∧
    setMatches (compileSetFilter "A") ["B", "A"] = true :=
  ⟨((setfilter_semantics "[\"A\",\"B\"]" ["B", "C", "A"]).1 ["A", "B"]
      (by decide) (by decide)).mpr (by decide),
   ((setfilter_semantics "A" ["B", "A"]).2 (Or.inl (by decide))).mpr (by decide)⟩

/-- Claim C2 counterexample: with globalSearch present alongside a complete
date range, the compiled predicate is not the seven-field OR alone — the
date-range clause is built outside the globalSearch branch and still
applies, so a part matching the OR but outside the range is rejected. -/
theorem globalsearch_not_exclusive :
    matchesFilter (compileFilter sampleQuery) samplePart = false ∧
    orSearch "foo" samplePart = true := by
  refine ⟨by decide, by decide⟩

/-- Claim C2 amended: when globalSearch is truthy every field-specific
filter of the else branch (partNumber, partName, description, category,
subCategory, supplier, alternativePartNumber) is left empty and globalOr
carries the term, and whenever no complete date range accompanies the
query the compiled predicate coincides with the seven-field
case-insensitive substring OR. -/
theorem globalsearch_overrides_field_filters (q : QueryParams) (p : PartRec)
    (hg : truthy q.globalSearch = true) :
    (compileFilter q).partNumber = none ∧
    (compileFilter q).partName = none ∧
    (compileFilter q).partDescription = none ∧
    (compileFilter q).category = none ∧
    (compileFilter q).subCategory = none ∧
    (compileFilter q).supplier = none ∧
    (compileFilter q).alternativePartNumbers = none ∧
    (compileFilter q).globalOr = q.globalSearch ∧
    (q.startDate = none ∨ q.endDate = none →
      ∀ t, q.globalSearch = some t → matchesFilter (compileFilter q) p = orSearch t p) := by
  refine ⟨?_, ?_, ?_, ?_, ?_, ?_, ?_, ?_, ?_⟩
  all_goals simp only [compileFilter, hg, if_pos]
  · intro hd t ht
    have hr : dateRange q = none := by
      rcases hd with h | h
      · simp [dateRange, h]
      · cases hs : q.startDate <;> simp [dateRange, h, hs]
    simp [matchesFilter, hr, ht]

/-- Concrete instance: a query with only a globalSearch term compiles to
the pure OR predicate. -/
theorem globalsearch_overrides_witness :
    (compileFilter { globalSearch := some "foo" }).partNumber = none ∧
    matchesFilter (compileFilter { globalSearch := some "foo" }) samplePart =
      orSearch "foo" samplePart :=
  ⟨(globalsearch_overrides_field_filters { globalSearch := some "foo" } samplePart (by decide)).1,
   (globalsearch_overrides_field_filters { globalSearch := some "foo" } samplePart
      (by decide)).2.2.2.2.2.2.2.2 (Or.inl rfl) "foo" rfl⟩

/-- Ceiling-division bounds for totalPages: with a positive size the
product totalPages times size is at least total and less than total plus
size. -/
theorem totalPages_bounds (t s : Nat) (hs : 1 ≤ s) :
    t ≤ ((t + s - 1) / s) * s ∧ ((t + s - 1) / s) * s < t + s := by
  have h1 : s * ((t + s - 1) / s) + (t + s - 1) % s = t + s - 1 :=
    Nat.div_add_mod (t + s - 1) s
  have h2 : (t + s - 1) % s < s := Nat.mod_lt _ (by omega)
  have h3 : s * ((t + s - 1) / s) = ((t + s - 1) / s) * s := Nat.mul_comm _ _
  omega

/-- Core paginator facts over an arbitrary matching list: the hasMore
equivalence, the window size bound, the out-of-range behaviour, the
ceiling characterisation of totalPages and the final-page behaviour. -/
theorem paginate_props (ms : List PartRec) (page size : Nat)
    (hp : 1 ≤ page) (hs : 1 ≤ size) :
    ((paginate ms page size).hasMore = true ↔
      (page - 1) * size + (paginate ms page size).window.length <
        (paginate ms page size).total) ∧
    (paginate ms page size).window.length ≤ size ∧
    ((paginate ms page size).total ≤ (page - 1) * size →
      (paginate ms page size).window = [] ∧
      (paginate ms page size).hasMore = false) ∧
    ((paginate ms page size).total ≤ (paginate ms page size).totalPages * size ∧
      (paginate ms page size).totalPages * size < (paginate ms page size).total + size) ∧
    (page = (paginate ms page size).totalPages →
      (paginate ms page size).hasMore = false) := by
  have hwin : (paginate ms page size).window.length =
      min size (ms.length - (page - 1) * size) := by
    simp [paginate, List.length_take, List.length_drop]
  refine ⟨?_, ?_, ?_, ?_, ?_⟩
  · simp [paginate]
  · rw [hwin]; exact Nat.min_le_left _ _
  · intro hle
    simp only [paginate] at hle ⊢
    have hnil : ms.drop ((page - 1) * size) = [] := List.drop_eq_nil_of_le hle
    constructor
    · simp [hnil]
    · simp only [hnil, List.take_nil, List.length_nil, Nat.add_zero,
        decide_eq_false_iff_not, Nat.not_lt]
      exact hle
  · simpa [paginate] using totalPages_bounds ms.length size hs
  · intro hpage
    simp only [paginate] at hpage
    have hb := totalPages_bounds ms.length size hs
    have hts : ms.length ≤ page * size := by
      rw [hpage]; exact hb.1
    have hmul : (page - 1) * size + size = page * size := by
      have hpp : page - 1 + 1 = page := by omega
      calc (page - 1) * size + size = ((page - 1) + 1) * size := (Nat.succ_mul _ _).symm
        _ = page * size := by rw [hpp]
    simp only [paginate, decide_eq_false_iff_not, Nat.not_lt,
      List.length_take, List.length_drop]
    rcases Nat.le_total size (ms.length - (page - 1) * size) with h | h
    · rw [Nat.min_eq_left h]; omega
    · rw [Nat.min_eq_right h]; omega

/-- Claim C6: for every predicate, 1-based page and positive size, hasMore
holds exactly when skip plus the returned count is below the total count of
matching records; a page whose skip reaches the total yields an empty
window with hasMore false; totalPages satisfies the ceiling
characterisation; and on the final page (page equal to totalPages) hasMore
is false. -/
theorem pagination_hasMore_correct (pred : PartRec → Bool) (records : List PartRec)
    (page size : Nat) (hp : 1 ≤ page) (hs : 1 ≤ size) :
    ((paginate (records.filter pred) page size).hasMore = true ↔
      (page - 1) * size + (paginate (records.filter pred) page size).window.length <
        (paginate (records.filter pred) page size).total) ∧
    (paginate (records.filter pred) page size).window.length ≤ size ∧
    ((paginate (records.filter pred) page size).total ≤ (page - 1) * size →
      (paginate (records.filter pred) page size).window = [] ∧
      (paginate (records.filter pred) page size).hasMore = false) ∧
    ((paginate (records.filter pred) page size).total ≤
        (paginate (records.filter pred) page size).totalPages * size ∧
      (paginate (records.filter pred) page size).totalPages * size <
        (paginate (records.filter pred) page size).total + size) ∧
    (page = (paginate (records.filter pred) page size).totalPages →
      (paginate (records.filter pred) page size).hasMore = false) :=
  paginate_props (records.filter pred) page size hp hs

/-- Concrete instance: one matching record, page one of size one. -/
theorem pagination_hasMore_witness :
    ((paginate ([samplePart].filter (fun _ => true)) 1 1).hasMore = true ↔
      (1 - 1) * 1 + (paginate ([samplePart].filter (fun _ => true)) 1 1).window.length <
        (paginate ([samplePart].filter (fun _ => true)) 1 1).total) ∧
    (paginate ([samplePart].filter (fun _ => true)) 1 1).window.length ≤ 1 ∧
    ((paginate ([samplePart].filter (fun _ => true)) 1 1).total ≤ (1 - 1) * 1 →
      (paginate ([samplePart].filter (fun _ => true)) 1 1).window = [] ∧
      (paginate ([samplePart].filter (fun _ => true)) 1 1).hasMore = false) ∧
    ((paginate ([samplePart].filter (fun _ => true)) 1 1).total ≤
        (paginate ([samplePart].filter (fun _ => true)) 1 1).totalPages * 1 ∧
      (paginate ([samplePart].filter (fun _ => true)) 1 1).totalPages * 1 <
        (paginate ([samplePart].filter (fun _ => true)) 1 1).total + 1) ∧
    (1 = (paginate ([samplePart].filter (fun _ => true)) 1 1).totalPages →
      (paginate ([samplePart].filter (fun _ => true)) 1 1).hasMore = false) :=
  pagination_hasMore_correct (fun _ => true) [samplePart] 1 1 (Nat.le_refl 1) (Nat.le_refl 1)

/-- A hit in the inserted-batch map comes from a batch member with that
partNumber. -/
theorem genLookup_some {batch : List GenPart} {pn : String} {i : Nat}
    (h : genLookup batch pn = some i) : ∃ q ∈ batch, q.id = i ∧ q.partNumber = pn := by
  induction batch with
  | nil => cases h
  | cons q rest ih =>
    simp only [genLookup] at h
    cases hr : genLookup rest pn with
    | some j =>
      rw [hr] at h
      obtain ⟨w, hw, hwi, hwpn⟩ := ih (hr.trans (by injection h with h2; rw [h2]))
      exact ⟨w, List.mem_cons_of_mem q hw, hwi, hwpn⟩
    | none =>
      rw [hr] at h
      by_cases hq : q.partNumber = pn
      · rw [if_pos hq] at h
        injection h with h2
        exact ⟨q, List.mem_cons_self q rest, h2, hq⟩
      · rw [if_neg hq] at h
        cases h

/-- A miss in the inserted-batch map means no batch member has that
partNumber. -/
theorem genLookup_none {batch : List GenPart} {pn : String}
    (h : genLookup batch pn = none) : ∀ q ∈ batch, q.partNumber ≠ pn := by
  induction batch with
  | nil => intro q hq; cases hq
  | cons q rest ih =>
    simp only [genLookup] at h
    cases hr : genLookup rest pn with
    | some j => rw [hr] at h; cases h
    | none =>
      rw [hr] at h
      intro w hw
      rcases List.mem_cons.mp hw with hwq | hwm
      · subst hwq
        intro hc
        rw [if_pos hc] at h
        cases h
      · exact ih hr w hwm

/-- Claim C8 counterexample: a one-parent batch whose only child uses the
generator child-code prefix keeps a null main-part reference after the
back-fill even though the canonical pool (the batch itself) is non-empty,
because the child code CP-AAAA equals no partNumber of the batch. -/
theorem gen_backfill_null_despite_pool :
    backfillAll sampleBatch = sampleBatch ∧
    (∀ p ∈ backfillAll sampleBatch, ∀ cs, p.childParts = some cs →
      ∀ c ∈ cs, c.mainPartId = none) ∧
    sampleBatch ≠ [] := by
  refine ⟨by decide, by decide, by decide⟩

/-- Claim C8 amended: after the back-fill pass of generateRandomParts,
every child reference is either the id of a batch part whose partNumber
equals the child partNumber, or null exactly when no batch part carries
the child partNumber; a reference to an id outside the batch never
occurs. -/
theorem gen_backfill_refs (batch : List GenPart) (p : GenPart) (cs : List GenChild)
    (c : GenChild) (hp : p ∈ backfillAll batch) (hcs : p.childParts = some cs)
    (hc : c ∈ cs) :
    (∀ i, c.mainPartId = some i → ∃ q ∈ batch, q.id = i ∧ q.partNumber = c.partNumber) ∧
    (c.mainPartId = none → ∀ q ∈ batch, q.partNumber ≠ c.partNumber) := by
  obtain ⟨p0, hp0, hpe⟩ := List.mem_map.mp hp
  cases hcs0 : p0.childParts with
  | none =>
    have hpp : p = p0 := by rw [← hpe]; simp [backfillPart, hcs0]
    rw [hpp, hcs0] at hcs
    cases hcs
  | some cs0 =>
    by_cases hemp : cs0.isEmpty = true
    · have hpp : p = p0 := by rw [← hpe]; simp [backfillPart, hcs0, hemp]
      rw [hpp, hcs0] at hcs
      injection hcs with hcs2
      subst hcs2
      rw [List.isEmpty_iff] at hemp
      subst hemp
      cases hc
    · have hpcs : p.childParts =
          some (cs0.map (fun c => { c with mainPartId := genLookup batch c.partNumber })) := by
        rw [← hpe]; simp [backfillPart, hcs0, hemp]
      rw [hpcs] at hcs
      injection hcs with hcs2
      subst hcs2
      obtain ⟨c0, hc0, hce⟩ := List.mem_map.mp hc
      have hpn : c.partNumber = c0.partNumber := by rw [← hce]
      have hmain : c.mainPartId = genLookup batch c0.partNumber := by rw [← hce]
      constructor
      · intro i hi
        rw [hmain] at hi
        rw [hpn]
        exact genLookup_some hi
      · intro hn
        rw [hmain] at hn
        rw [hpn]
        exact genLookup_none hn

/-- Concrete instance: the child code PB of the first parent resolves to
the id 2 of the second batch member. -/
theorem gen_backfill_refs_witness :
    (∀ i, (⟨"PB", "n", "d", "s", 1, some 2⟩ : GenChild).mainPartId = some i →
      ∃ q ∈ sampleBatch2, q.id = i ∧ q.partNumber = "PB") ∧
    ((⟨"PB", "n", "d", "s", 1, some 2⟩ : GenChild).mainPartId = none →
      ∀ q ∈ sampleBatch2, q.partNumber ≠ "PB") :=
  gen_backfill_refs sampleBatch2 ⟨1, "PA", some [⟨"PB", "n", "d", "s", 1, some 2⟩]⟩
    [⟨"PB", "n", "d", "s", 1, some 2⟩] ⟨"PB", "n", "d", "s", 1, some 2⟩
    (by decide) rfl (by decide)

/-- The no-change rewrite is idempotent: applying it to its own output
changes nothing. -/
theorem noChange_idem (pool : List PoolEntry) (c : ChildPart) :
    noChangeChild pool (noChangeChild pool c) = noChangeChild pool c := by
  simp only [noChangeChild]
  cases hm : c.mainPartId with
  | some m => simp
  | none =>
    by_cases hpn : c.partNumber = ""
    · simp [hpn]
    · cases hl : lookupId pool c.partNumber <;> simp [hpn, hl]

/-- One reconciliation step is idempotent for a fixed draw, provided the
selected pool entry carries a description: the second application of the
same rewrite leaves the child unchanged. -/
theorem reconcileChild_idem (pool : List PoolEntry) (idx : Nat) (c : ChildPart)
    (hdesc : ∀ e ∈ pool, (e.partDescription).isSome = true) :
    reconcileChild pool idx (reconcileChild pool idx c) = reconcileChild pool idx c := by
  cases he : pool[idx]? with
  | none =>
    simp only [reconcileChild, he]
    exact noChange_idem pool c
  | some e =>
    have hmem : e ∈ pool := List.getElem?_mem he
    obtain ⟨d, hd⟩ := Option.isSome_iff_exists.mp (hdesc e hmem)
    by_cases hrep : needsReplace c e = true
    · have h1 : reconcileChild pool idx c = replacementChild pool e c := by
        simp [reconcileChild, he, hrep]
      have hro : needsReplace (replacementChild pool e c) e = false := by
        simp [needsReplace, replacementChild, hd]
      have h2 : reconcileChild pool idx (replacementChild pool e c) =
          noChangeChild pool (replacementChild pool e c) := by
        simp [reconcileChild, he, hro]
      rw [h1, h2]
      simp [noChangeChild, replacementChild]
    · have hrf : needsReplace c e = false := by simpa using hrep
      have h1 : reconcileChild pool idx c = noChangeChild pool c := by
        simp [reconcileChild, he, hrf]
      simp only [needsReplace, Bool.or_eq_false_iff, decide_eq_false_iff_not,
        not_not] at hrf
      obtain ⟨⟨⟨hpn, hname⟩, hdesc2⟩, hmain⟩ := hrf
      obtain ⟨m, hm⟩ : ∃ m, c.mainPartId = some m := by
        cases hmm : c.mainPartId with
        | none => rw [hmm] at hmain; simp at hmain
        | some m => exact ⟨m, rfl⟩
      have hro : needsReplace (noChangeChild pool c) e = false := by
        simp [needsReplace, noChangeChild, hpn, hname, hdesc2, hd, hm]
      have h2 : reconcileChild pool idx (noChangeChild pool c) =
          noChangeChild pool (noChangeChild pool c) := by
        simp [reconcileChild, he, hro]
      rw [h1, h2]
      exact noChange_idem pool c

/-- Rewriting a child list preserves its emptiness. -/
theorem reconcileChildren_isEmpty (pool : List PoolEntry) (rc : Nat → Nat) :
    ∀ (j : Nat) (cs : List ChildPart),
      (reconcileChildren pool rc j cs).isEmpty = cs.isEmpty := by
  intro j cs
  cases cs <;> simp [reconcileChildren]

/-- The child-list rewrite is idempotent for fixed draws when every pool
entry carries a description. -/
theorem reconcileChildren_idem (pool : List PoolEntry) (rc : Nat → Nat)
    (hdesc : ∀ e ∈ pool, (e.partDescription).isSome = true) :
    ∀ (j : Nat) (cs : List ChildPart),
      reconcileChildren pool rc j (reconcileChildren pool rc j cs) =
        reconcileChildren pool rc j cs := by
  intro j cs
  induction cs generalizing j with
  | nil => rfl
  | cons c cs ih =>
    simp only [reconcileChildren]
    rw [reconcileChild_idem pool (rc j) c hdesc, ih (j + 1)]

/-- The whole reconciliation run is idempotent in the produced records for
identical draw streams, when every pool entry carries a description. -/
theorem runRec_idem (pool : List PoolEntry) (r : Nat → Nat → Nat)
    (hdesc : ∀ e ∈ pool, (e.partDescription).isSome = true) :
    ∀ (i : Nat) (ps : List ParentPart),
      runRec pool r i ((runRec pool r i ps).1) = runRec pool r i ps := by
  intro i ps
  induction ps generalizing i with
  | nil => rfl
  | cons p ps ih =>
    by_cases hE : p.childParts.isEmpty = true
    · simp only [runRec, hE, if_pos]
      rw [ih (i + 1)]
    · have hE2 : (reconcileChildren pool (r i) 0 p.childParts).isEmpty = false := by
        rw [reconcileChildren_isEmpty]
        simpa using hE
      simp only [runRec, hE, if_neg, Bool.false_eq_true, not_false_eq_true, hE2]
      rw [reconcileChildren_idem pool (r i) hdesc 0 p.childParts, ih (i + 1)]

/-- Claim C1 counterexample: with the two-entry pool and a single parent
with one child, the second pass still reports the parent as updated
(updatedCount one, not zero) even when it repeats the same draws, and a
second pass drawing the other pool entry changes the child values. -/
theorem reconcile_not_idempotent :
    (runRec samplePool2 (fun _ _ => 0) 0
      ((runRec samplePool2 (fun _ _ => 0) 0 sampleParent1).1)).2 = 1 ∧
    (runRec samplePool2 (fun _ _ => 1) 0
      ((runRec samplePool2 (fun _ _ => 0) 0 sampleParent1).1)).1 ≠
      (runRec samplePool2 (fun _ _ => 0) 0 sampleParent1).1 := by
  refine ⟨by decide, by decide⟩

/-- Claim C1 amended: when the second pass repeats the same random draws
and every pool entry has a description, the child values are unchanged;
but the second pass still counts every parent with a non-empty child list
as updated, because needsUpdate is set unconditionally, so it never
reports zero parents needing update unless no parent has children. -/
theorem reconcile_idem_same_draws (pool : List PoolEntry) (r : Nat → Nat → Nat)
    (ps : List ParentPart) (hpool : pool ≠ [])
    (hdesc : ∀ e ∈ pool, (e.partDescription).isSome = true) :
    runRec pool r 0 ((runRec pool r 0 ps).1) = runRec pool r 0 ps ∧
    (runRec pool r 0 ((runRec pool r 0 ps).1)).2 =
      (ps.filter (fun p => !p.childParts.isEmpty)).length := by
  have h := runRec_idem pool r hdesc 0 ps
  exact ⟨h, by rw [h]; exact runRec_count pool r 0 ps⟩

/-- Concrete instance of the amended idempotence statement. -/
theorem reconcile_idem_same_draws_witness :
    runRec samplePool2 (fun _ _ => 0) 0
      ((runRec samplePool2 (fun _ _ => 0) 0 sampleParent1).1) =
      runRec samplePool2 (fun _ _ => 0) 0 sampleParent1 ∧
    (runRec samplePool2 (fun _ _ => 0) 0
      ((runRec samplePool2 (fun _ _ => 0) 0 sampleParent1).1)).2 =
      (sampleParent1.filter (fun p => !p.childParts.isEmpty)).length :=
  reconcile_idem_same_draws samplePool2 (fun _ _ => 0) sampleParent1
    (by decide) (by decide)
